import Mathlib

/-! # CppReflection: a shallow embedding of `CppReflection.h`

The header renders named C++ values as text.  Its moving parts are

* the process-wide render state (`mode`, `depth`),
* the three delimiter lambdas `beginDelim`, `middleDelim`, `endDelim`,
* the trait struct `stream_var`, whose boolean members enable the five
  overloads of `_processNameValue`,
* the recursive renderer `_processNameValue` / `reflectTuple` / `_reflect`,
* the entry point `reflect`.

Static state is threaded explicitly; a C++ value is represented by the overload
that renders it together with what that overload reads from it.

There are two embeddings of the renderer. The first, on `Value`, is for plain
values: a streamed value writes a fixed text and a self-describing value is
written as `Foo` in `test.cpp`; there `std::ostringstream` is a `String` that is only
ever appended to. The second, in the namespace `General`, lets an insertion read
and change the format state of the stream and lets `reflect()` go through any of
the three macros; `General.reflect_plain` ties the two together.
-/

namespace CppReflection

/-! ## Render state -/

/-- The enum `modeList` (`List = 0`, `CSV`); `ModeCount` is only the length of
the delimiter arrays and is never a value of `mode`. -/
inductive modeList where
  | List
  | CSV
  deriving DecidableEq, Repr

/-- The two statics `mode` and `depth` of the unnamed namespace. `depth` is a C++
`int`; `depth++` and `depth--` are kept exact (nesting never approaches 2^31), the
countdown of `beginDelim` wraps around as the `int` does (`decrInt`). -/
structure State where
  mode : modeList
  depth : Int
  deriving DecidableEq, Repr

/-- The initial values of the statics: `mode = List`, `depth = -1`. -/
def State.initial : State := { mode := modeList.List, depth := -1 }

/-- The lambda `incrDepth`: `depth++`. -/
def incrDepth (st : State) : State := { st with depth := st.depth + 1 }

/-- The lambda `decrDepth`: `depth--`. -/
def decrDepth (st : State) : State := { st with depth := st.depth - 1 }

/-! ## Delimiters -/

/-- The array `delims` of `beginDelim`: a tab for `List`, nothing for `CSV`. -/
def beginDelims : modeList → String
  | modeList.List => "\t"
  | modeList.CSV => ""

/-- The array `delims` of `middleDelim`. -/
def middleDelims : modeList → String
  | modeList.List => " = "
  | modeList.CSV => " , "

/-- The array `delims` of `endDelim`. -/
def endDelims : modeList → String
  | modeList.List => "\n"
  | modeList.CSV => " , "

/-- The decrement of `loopCtr--` on a C++ `int` of 32 bits: one less, and from the
smallest `int` to the largest. The standard leaves that overflow undefined; the
compiled decrement wraps around in two's complement, which is what is kept here. -/
def decrInt (x : Int) : Int := if x = -2147483648 then 2147483647 else x - 1

/-- The loop `while(loopCtr--) ret += delims.at(mode);` of `beginDelim`, run for at
most `fuel` evaluations of its condition. The condition tests `loopCtr`
against zero and then decrements it. `none` means the fuel ran out before the
condition became false. -/
def beginDelimLoop (delim : String) : Nat → Int → String → Option String
  | 0, _, _ => none
  | fuel + 1, loopCtr, ret =>
    if loopCtr ≠ 0 then beginDelimLoop delim fuel (decrInt loopCtr) (ret ++ delim)
    else some ret

/-- The number of evaluations of its condition the loop of `beginDelim` needs when
`loopCtr` starts at `depth`: `depth + 1` when `depth ≥ 0` (`beginDelimLoop_iterations`),
and `depth + 2^32 + 1` when `depth` is a negative `int`, the counter then going
down to the smallest `int`, around to the largest and down to zero
(`beginDelimLoop_wraps`). -/
def loopFuel (depth : Int) : Nat :=
  if 0 ≤ depth then depth.toNat + 1 else (depth + 4294967296).toNat + 1

/-- The lambda `beginDelim`. The loop is given the evaluations of its condition it
needs to end, `loopFuel`; the result is `none` only for a `depth` below the range
of `int`, which no `int` holds. -/
def beginDelim (st : State) : Option String :=
  beginDelimLoop (beginDelims st.mode) (loopFuel st.depth) st.depth ""

/-- The lambda `middleDelim`. -/
def middleDelim (st : State) : String := middleDelims st.mode

/-- The lambda `endDelim`. -/
def endDelim (st : State) : String := endDelims st.mode

/-! ## The trait struct `stream_var` -/

/-- The outcome of the seven SFINAE probes of `stream_var<std::ostringstream, T>`
for a type `T`: each is `true` when the `int` overload of the probe is viable. -/
structure stream_var where
  test_ltlt1 : Bool
  test_ltlt2 : Bool
  test_reflectAPI : Bool
  test_begin : Bool
  test_end : Bool
  test_size : Bool
  test_tuple : Bool
  deriving DecidableEq, Repr

namespace stream_var

/-- Member `has_size`. -/
def has_size (p : stream_var) : Bool := p.test_size

/-- Member `has_begin`. -/
def has_begin (p : stream_var) : Bool := p.test_begin

/-- Member `has_end`. -/
def has_end (p : stream_var) : Bool := p.test_end

/-- Member `has_ltlt`. -/
def has_ltlt (p : stream_var) : Bool := p.test_ltlt1 || p.test_ltlt2

/-- Member `has_reflect`. -/
def has_reflect (p : stream_var) : Bool := p.test_reflectAPI

/-- Member `is_container`. -/
def is_container (p : stream_var) : Bool :=
  !p.has_ltlt && p.has_size && p.has_begin && p.has_end

/-- Member `is_tuple`. -/
def is_tuple (p : stream_var) : Bool := p.test_tuple && !p.is_container

/-- Member `not_printable`. -/
def not_printable (p : stream_var) : Bool :=
  !(p.is_container || p.has_ltlt || p.has_reflect || p.is_tuple)

end stream_var

/-- The five overloads of `_processNameValue`, named by the member of `stream_var`
in their `enable_if`, in declaration order. -/
inductive Overload where
  | has_reflect
  | has_ltlt
  | is_tuple
  | is_container
  | not_printable
  deriving DecidableEq, Repr

/-- The `enable_if` condition of each overload. -/
def Overload.enabled (p : stream_var) : Overload → Bool
  | Overload.has_reflect => p.has_reflect
  | Overload.has_ltlt => p.has_ltlt
  | Overload.is_tuple => p.is_tuple
  | Overload.is_container => p.is_container
  | Overload.not_printable => p.not_printable

/-- The overloads of `_processNameValue` that survive substitution for a type with
probes `p`. All five have the same parameter list, so a call is resolved only
when this list has exactly one member. -/
def enabledOverloads (p : stream_var) : List Overload :=
  [Overload.has_reflect, Overload.has_ltlt, Overload.is_tuple, Overload.is_container,
    Overload.not_printable].filter (Overload.enabled p)

/-! ## Values -/

/-- A plain C++ value as the renderer sees it: the overload of `_processNameValue`
that handles it, with what that overload reads. Plain means that streaming the
value writes a fixed text and leaves the stream as it is, and that a `reflect()`
is written with `CppReflect`; `General.Value` is without these two limits.

* `streamable text`: `has_ltlt`; `text` is what `oBuffer << t` writes (the stream
  has `std::boolalpha` set).
* `object nameStr fields`: `has_reflect`, for a class written as `Foo` in
  `test.cpp`, whose `reflect()` is `return CppReflect(fields...)`; `nameStr` is the
  stringified argument list of that macro call. The macro needs at least one
  argument; an empty `fields` stands for a `reflect()` that returns no text.
* `tuple elems`: `is_tuple`; `std::tuple_size<T>::value` is `elems.length` and
  `std::get<N>(t)` is the element at position `N`.
* `container size elems`: `is_container`; `size` is what `t.size()` returns and
  `elems` is what the iteration from `t.begin()` to `t.end()` yields.
* `unprintable`: `not_printable`. -/
inductive Value where
  | streamable (text : String)
  | object (nameStr : String) (fields : List Value)
  | tuple (elems : List Value)
  | container (size : Nat) (elems : List Value)
  | unprintable

/-! ## Name splitting -/

/-- The call `nameStr.find(c)` on the characters: position of the first `c`. -/
def find (c : Char) : List Char → Option Nat
  | [] => none
  | x :: xs => if x = c then some 0 else (find c xs).map (· + 1)

/-- The value of `varT` in `_reflect` before the spaces are erased: the text
before the first comma, or all of `nameStr` when it has none. -/
def varTRaw (nameStr : String) : String :=
  match find ',' nameStr.data with
  | some pos => String.mk (nameStr.data.take pos)
  | none => nameStr

/-- The value of `varTRest` in `_reflect`: the text after the first comma, or
the empty string when there is none. -/
def varTRest (nameStr : String) : String :=
  match find ',' nameStr.data with
  | some pos => String.mk (nameStr.data.drop (pos + 1))
  | none => ""

/-- The erase-remove idiom `varT.erase(std::remove(.., ' '), ..)`. -/
def eraseSpaces (s : String) : String := String.mk (s.data.filter (· ≠ ' '))

/-- The value of `varT` that `_reflect` passes to `_processNameValue`. -/
def varT (nameStr : String) : String := eraseSpaces (varTRaw nameStr)

/-- The synthesized element name `varT + "[" + std::to_string(i) + "]"`. -/
def varTElem (varT : String) (i : Nat) : String := varT ++ "[" ++ toString i ++ "]"

/-! ## The renderer -/

mutual

/-- The five overloads of `_processNameValue`, one per constructor of `Value`.
The buffer and the state after the call are returned; `none` is a call whose
`beginDelim` does not return (a depth below the range of `int`). -/
def _processNameValue (st : State) (oBuffer : String) (varT : String) :
    Value → Option (String × State)
  | Value.object nameStr fields =>
    match beginDelim st with
    | none => none
    | some b =>
      let oBuffer := oBuffer ++ b ++ varT ++ " ( Object )" ++ endDelim st
      -- `t.reflect()`, that is `reflect(mode, nameStr, fields...)`
      let st1 := { incrDepth st with mode := st.mode }
      match _reflect st1 "" nameStr fields with
      | none => none
      | some (ret, st2) => some (oBuffer ++ ret, decrDepth st2)
  | Value.streamable text =>
    match beginDelim st with
    | none => none
    | some b => some (oBuffer ++ b ++ varT ++ middleDelim st ++ text ++ endDelim st, st)
  | Value.tuple elems =>
    match beginDelim st with
    | none => none
    | some b =>
      let oBuffer := oBuffer ++ b ++ varT ++ " ( Tuple with " ++ toString elems.length
        ++ " elements )" ++ endDelim st
      match reflectTuple (incrDepth st) oBuffer varT 0 elems with
      | none => none
      | some (oBuffer, st1) => some (oBuffer, decrDepth st1)
  | Value.container size elems =>
    match beginDelim st with
    | none => none
    | some b =>
      let oBuffer := oBuffer ++ b ++ varT ++ " ( Container with " ++ toString size
        ++ " elements )" ++ endDelim st
      match forLoop (incrDepth st) oBuffer varT 0 elems with
      | none => none
      | some (oBuffer, st1) => some (oBuffer, decrDepth st1)
  | Value.unprintable =>
    match beginDelim st with
    | none => none
    | some b => some (oBuffer ++ b ++ varT ++ " can't be printed. \n ", st)

/-- The two overloads of `reflectTuple<T, N>`: the list holds the elements of the
tuple from position `N` on, so the empty list is `N == tuple_size`. -/
def reflectTuple (st : State) (oBuffer : String) (varT : String) (N : Nat) :
    List Value → Option (String × State)
  | [] => some (oBuffer, st)
  | t_N :: rest =>
    match _processNameValue st oBuffer (varTElem varT N) t_N with
    | none => none
    | some (oBuffer, st1) => reflectTuple st1 oBuffer varT (N + 1) rest

/-- The `for` loop of the container overload, with its counter `i`; the list
holds what the iterator has yet to yield. -/
def forLoop (st : State) (oBuffer : String) (varT : String) (i : Nat) :
    List Value → Option (String × State)
  | [] => some (oBuffer, st)
  | x :: rest =>
    match _processNameValue st oBuffer (varTElem varT i) x with
    | none => none
    | some (oBuffer, st1) => forLoop st1 oBuffer varT (i + 1) rest

/-- The two overloads of `_reflect`: the terminating one for an empty pack, the
recursive one for `t, tRest...`. -/
def _reflect (st : State) (oBuffer : String) (nameStr : String) :
    List Value → Option (String × State)
  | [] => some (oBuffer, st)
  | t :: tRest =>
    match _processNameValue st oBuffer (varT nameStr) t with
    | none => none
    | some (oBuffer, st1) => _reflect st1 oBuffer (varTRest nameStr) tRest

end

/-- The entry point `reflect(modeArg, nameStr, t, tRest...)`: the text returned and
the state left behind. -/
def reflect (st : State) (modeArg : modeList) (nameStr : String) (t : Value)
    (tRest : List Value) : Option (String × State) :=
  let st1 := { incrDepth st with mode := modeArg }
  match _reflect st1 "" nameStr (t :: tRest) with
  | none => none
  | some (oBuffer, st2) => some (oBuffer, decrDepth st2)

/-- The macro `CppReflectAsList`. -/
def CppReflectAsList (st : State) (nameStr : String) (t : Value) (tRest : List Value) :
    Option (String × State) :=
  reflect st modeList.List nameStr t tRest

/-- The macro `CppReflectAsCSV`. -/
def CppReflectAsCSV (st : State) (nameStr : String) (t : Value) (tRest : List Value) :
    Option (String × State) :=
  reflect st modeList.CSV nameStr t tRest

/-- The macro `CppReflect`: `reflect` with the stored mode. -/
def CppReflect (st : State) (nameStr : String) (t : Value) (tRest : List Value) :
    Option (String × State) :=
  reflect st st.mode nameStr t tRest

/-- The text `beginDelim` returns at a depth that is not negative. -/
def opening : modeList → Nat → String
  | modeList.List, d => String.mk (List.replicate d '\t')
  | modeList.CSV, _ => ""

/-- The name under which the `i`-th value of a pack is rendered: `varT` of the
name text after `i` steps of `_reflect`. -/
def nameAt (nameStr : String) (i : Nat) : String := varT (varTRest^[i] nameStr)

mutual

/-- The text appended by `_processNameValue` at depth `d`. -/
def renderValue (m : modeList) (d : Nat) (name : String) : Value → String
  | Value.object nameStr fields =>
    opening m d ++ name ++ " ( Object )" ++ endDelims m ++ renderArgs m (d + 1) nameStr fields
  | Value.streamable text => opening m d ++ name ++ middleDelims m ++ text ++ endDelims m
  | Value.tuple elems =>
    opening m d ++ name ++ " ( Tuple with " ++ toString elems.length ++ " elements )"
      ++ endDelims m ++ renderElems m (d + 1) name 0 elems
  | Value.container size elems =>
    opening m d ++ name ++ " ( Container with " ++ toString size ++ " elements )"
      ++ endDelims m ++ renderElems m (d + 1) name 0 elems
  | Value.unprintable => opening m d ++ name ++ " can't be printed. \n "

/-- The text appended by `reflectTuple` and by the container loop from index `i`. -/
def renderElems (m : modeList) (d : Nat) (name : String) (i : Nat) : List Value → String
  | [] => ""
  | x :: rest => renderValue m d (varTElem name i) x ++ renderElems m d name (i + 1) rest

/-- The text appended by `_reflect`. -/
def renderArgs (m : modeList) (d : Nat) (nameStr : String) : List Value → String
  | [] => ""
  | t :: tRest => renderValue m d (varT nameStr) t ++ renderArgs m d (varTRest nameStr) tRest

end

/-! ## Newline-free values -/

/-- The text has no newline character. -/
def noNewline (s : String) : Bool := s.data.all (· ≠ '\n')

mutual

/-- The value has no unrenderable part, and none of the texts it brings along (the
streamed texts and the name texts of the nested `CppReflect` calls) has a
newline character. -/
def Value.newlineFree : Value → Bool
  | Value.object nameStr fields => noNewline nameStr && Value.newlineFreeList fields
  | Value.streamable text => noNewline text
  | Value.tuple elems => Value.newlineFreeList elems
  | Value.container _ elems => Value.newlineFreeList elems
  | Value.unprintable => false

/-- Every value of the list is `Value.newlineFree`. -/
def Value.newlineFreeList : List Value → Bool
  | [] => true
  | v :: vs => Value.newlineFree v && Value.newlineFreeList vs

end

/-! ## Name texts as the specification describes them -/

/-- The segments of a name text split at every comma, as the specification words
it: a text with `k` commas has `k + 1` segments, the empty text has one empty
segment. Not in the source; `nameAt_eq_specName` compares it with `_reflect`. -/
def specSegments : List Char → List (List Char)
  | [] => [[]]
  | c :: cs =>
    if c = ',' then [] :: specSegments cs
    else
      match specSegments cs with
      | seg :: segs => (c :: seg) :: segs
      | [] => [[c]]

/-- The name the specification gives the `i`-th value: the `i`-th segment with every
space removed, and the empty name when there is no such segment. -/
def specName (nameStr : String) (i : Nat) : String :=
  String.mk (((specSegments nameStr.data).getD i []).filter (· ≠ ' '))

/-! ## The renderer over arbitrary insertions and self-descriptions

`Value` above fixes two things the header leaves to the type of the value: what
`oBuffer << t` does (there: append a fixed text) and what `t.reflect()` does
(there: `CppReflect(fields...)`, as `Foo`). The embedding below lifts both. An
insertion reads and may change the format state of the stream it writes to, which
all values of one `reflect` call share; a `reflect()` may go through any of the
three macros. It also keeps, for the proofs, a record of the depth at which
each `beginDelim` is evaluated. `General.plain` maps a `Value` to its general form,
and `General.processNameValue_plain` shows that the two embeddings agree there. -/

namespace General

/-- The field `basefield` of the format flags of a stream. -/
inductive Base where
  | dec
  | hex
  | oct
  deriving DecidableEq, Repr

/-- The format state of a `std::ostringstream`, as far as it is kept: the flag
`boolalpha` and the field `basefield`. Width, precision, fill and the error state
are not kept. -/
structure Fmt where
  boolalpha : Bool
  basefield : Base
  deriving DecidableEq, Repr

/-- The format state of the stream of `reflect` after `oBuffer << std::boolalpha`. -/
def Fmt.fresh : Fmt := { boolalpha := true, basefield := Base.dec }

/-- The text `oBuffer << n` writes for an unsigned integer `n`, which is how the
headers write `t.size()` and `std::tuple_size<T>::value`. -/
def Fmt.putNat (fmt : Fmt) (n : Nat) : String :=
  match fmt.basefield with
  | Base.dec => toString n
  | Base.hex => String.mk (Nat.toDigits 16 n)
  | Base.oct => String.mk (Nat.toDigits 8 n)

/-- A `std::ostringstream`: the text written so far and the format state. -/
structure OStream where
  str : String
  fmt : Fmt
  deriving DecidableEq, Repr

/-- The stream `reflect` starts with: `std::ostringstream oBuffer; oBuffer << std::boolalpha;`. -/
def OStream.fresh : OStream := { str := "", fmt := Fmt.fresh }

/-- The insertion `oBuffer << s` of a `std::string` or a string literal. -/
def OStream.put (o : OStream) (s : String) : OStream := { o with str := o.str ++ s }

/-- The statics `mode` and `depth`, with the record `seen` of the value of `depth` at
each evaluation of `beginDelim` so far, the latest first. No code reads `seen`. -/
structure Run where
  st : State
  seen : List Int
  deriving DecidableEq, Repr

/-- A C++ value as the renderer sees it, in general.

* `streamable ins`: `has_ltlt`; `ins fmt` is the text `oBuffer << t` writes when the
  format state is `fmt`, and the format state it leaves.
* `object entry nameStr fields`: `has_reflect`, for a class whose `reflect()` is
  `return M(fields...)` with `M` one of the macros: `CppReflect` for `entry = none`,
  `CppReflectAsList` and `CppReflectAsCSV` for `some List` and `some CSV`.
* `tuple`, `container`, `unprintable`: as for `CppReflection.Value`. -/
inductive Value where
  | streamable (ins : Fmt → String × Fmt)
  | object (entry : Option modeList) (nameStr : String) (fields : List Value)
  | tuple (elems : List Value)
  | container (size : Nat) (elems : List Value)
  | unprintable

/-- The lambda `beginDelim`, with the evaluation recorded. -/
def beginDelim (r : Run) : Option (String × Run) :=
  match CppReflection.beginDelim r.st with
  | none => none
  | some b => some (b, { r with seen := r.st.depth :: r.seen })

mutual

/-- The five overloads of `_processNameValue`, one per constructor of `General.Value`. -/
def _processNameValue (r : Run) (oBuffer : OStream) (varT : String) :
    Value → Option (OStream × Run)
  | Value.object entry nameStr fields =>
    match beginDelim r with
    | none => none
    | some (b, r1) =>
      let oBuffer := oBuffer.put (b ++ varT ++ " ( Object )" ++ endDelim r1.st)
      -- `t.reflect()`, that is `reflect(modeArg, nameStr, fields...)`, where `modeArg` is
      -- the stored mode for `CppReflect` and the macro's mode otherwise
      let r2 : Run := { r1 with st := { incrDepth r1.st with mode := entry.getD r1.st.mode } }
      match _reflect r2 OStream.fresh nameStr fields with
      | none => none
      | some (ret, r3) => some (oBuffer.put ret.str, { r3 with st := decrDepth r3.st })
  | Value.streamable ins =>
    match beginDelim r with
    | none => none
    | some (b, r1) =>
      let oBuffer := oBuffer.put (b ++ varT ++ middleDelim r1.st)
      let oBuffer : OStream :=
        { str := oBuffer.str ++ (ins oBuffer.fmt).1, fmt := (ins oBuffer.fmt).2 }
      some (oBuffer.put (endDelim r1.st), r1)
  | Value.tuple elems =>
    match beginDelim r with
    | none => none
    | some (b, r1) =>
      let oBuffer := oBuffer.put (b ++ varT ++ " ( Tuple with "
        ++ oBuffer.fmt.putNat elems.length ++ " elements )" ++ endDelim r1.st)
      match reflectTuple { r1 with st := incrDepth r1.st } oBuffer varT 0 elems with
      | none => none
      | some (oBuffer, r2) => some (oBuffer, { r2 with st := decrDepth r2.st })
  | Value.container size elems =>
    match beginDelim r with
    | none => none
    | some (b, r1) =>
      let oBuffer := oBuffer.put (b ++ varT ++ " ( Container with "
        ++ oBuffer.fmt.putNat size ++ " elements )" ++ endDelim r1.st)
      match forLoop { r1 with st := incrDepth r1.st } oBuffer varT 0 elems with
      | none => none
      | some (oBuffer, r2) => some (oBuffer, { r2 with st := decrDepth r2.st })
  | Value.unprintable =>
    match beginDelim r with
    | none => none
    | some (b, r1) => some (oBuffer.put (b ++ varT ++ " can't be printed. \n "), r1)

/-- The two overloads of `reflectTuple<T, N>`, on the elements from position `N` on. -/
def reflectTuple (r : Run) (oBuffer : OStream) (varT : String) (N : Nat) :
    List Value → Option (OStream × Run)
  | [] => some (oBuffer, r)
  | t_N :: rest =>
    match _processNameValue r oBuffer (varTElem varT N) t_N with
    | none => none
    | some (oBuffer, r1) => reflectTuple r1 oBuffer varT (N + 1) rest

/-- The `for` loop of the container overload, with its counter `i`. -/
def forLoop (r : Run) (oBuffer : OStream) (varT : String) (i : Nat) :
    List Value → Option (OStream × Run)
  | [] => some (oBuffer, r)
  | x :: rest =>
    match _processNameValue r oBuffer (varTElem varT i) x with
    | none => none
    | some (oBuffer, r1) => forLoop r1 oBuffer varT (i + 1) rest

/-- The two overloads of `_reflect`. -/
def _reflect (r : Run) (oBuffer : OStream) (nameStr : String) :
    List Value → Option (OStream × Run)
  | [] => some (oBuffer, r)
  | t :: tRest =>
    match _processNameValue r oBuffer (varT nameStr) t with
    | none => none
    | some (oBuffer, r1) => _reflect r1 oBuffer (varTRest nameStr) tRest

end

/-- The entry point `reflect(modeArg, nameStr, t, tRest...)`: the text returned, and the
statics and the record left behind. -/
def reflect (r : Run) (modeArg : modeList) (nameStr : String) (t : Value)
    (tRest : List Value) : Option (String × Run) :=
  let r1 : Run := { r with st := { incrDepth r.st with mode := modeArg } }
  match _reflect r1 OStream.fresh nameStr (t :: tRest) with
  | none => none
  | some (oBuffer, r2) => some (oBuffer.str, { r2 with st := decrDepth r2.st })

/-- The macro `CppReflect`: `reflect` with the stored mode. -/
def CppReflect (r : Run) (nameStr : String) (t : Value) (tRest : List Value) :
    Option (String × Run) :=
  reflect r r.st.mode nameStr t tRest

mutual

/-- The general form of a `CppReflection.Value`: its insertion writes the fixed text
and leaves the format state alone, its `reflect()` goes through `CppReflect`. -/
def plain : CppReflection.Value → Value
  | CppReflection.Value.streamable text => Value.streamable (fun fmt => (text, fmt))
  | CppReflection.Value.object nameStr fields => Value.object none nameStr (plainList fields)
  | CppReflection.Value.tuple elems => Value.tuple (plainList elems)
  | CppReflection.Value.container size elems => Value.container size (plainList elems)
  | CppReflection.Value.unprintable => Value.unprintable

/-- The general forms of a list of values. -/
def plainList : List CppReflection.Value → List Value
  | [] => []
  | v :: vs => plain v :: plainList vs

end

/-- The manipulator `std::hex` as a value: `oBuffer << std::hex` writes nothing and sets
`basefield` to `hex`. -/
def stdHex : Value := Value.streamable (fun fmt => ("", { fmt with basefield := Base.hex }))

/-- An `unsigned` value `n`: `oBuffer << n` writes `n` in the base of the stream. -/
def unsignedValue (n : Nat) : Value := Value.streamable (fun fmt => (fmt.putNat n, fmt))

end General

/-! ## Text lemmas -/

theorem join_nil : String.join [] = "" := rfl

theorem join_cons (x : String) (xs : List String) :
    String.join (x :: xs) = x ++ String.join xs := by
  apply String.ext
  simp [String.join_eq]

theorem join_replicate_tab (d : Nat) :
    String.join (List.replicate d "\t") = String.mk (List.replicate d '\t') := by
  induction d with
  | zero => rfl
  | succ k ih =>
    rw [List.replicate_succ, join_cons, ih]
    apply String.ext
    simp [List.replicate_succ]

theorem join_replicate_empty (d : Nat) : String.join (List.replicate d "") = "" := by
  induction d with
  | zero => rfl
  | succ k ih => rw [List.replicate_succ, join_cons, ih]; rfl

theorem join_replicate_succ (ret delim : String) (n : Nat) :
    ret ++ delim ++ String.join (List.replicate n delim)
      = ret ++ String.join (List.replicate (n + 1) delim) := by
  rw [List.replicate_succ, join_cons, String.append_assoc]

/-! ## The delimiter loop -/

theorem beginDelimLoop_nonneg (delim : String) (n : Nat) :
    ∀ (fuel : Nat) (ret : String), n < fuel →
      beginDelimLoop delim fuel (n : Int) ret
        = some (ret ++ String.join (List.replicate n delim)) := by
  induction n with
  | zero =>
    intro fuel ret h
    obtain ⟨f, rfl⟩ : ∃ f, fuel = f + 1 := ⟨fuel - 1, by omega⟩
    simp [beginDelimLoop, join_nil]
  | succ k ih =>
    intro fuel ret h
    obtain ⟨f, rfl⟩ : ∃ f, fuel = f + 1 := ⟨fuel - 1, by omega⟩
    have hk : ((k + 1 : Nat) : Int) ≠ 0 := by omega
    have hk1 : decrInt ((k + 1 : Nat) : Int) = (k : Int) := by
      unfold decrInt
      rw [if_neg (by omega)]
      omega
    rw [beginDelimLoop, if_pos hk, hk1, ih f (ret ++ delim) (by omega), List.replicate_succ,
      join_cons, String.append_assoc]

theorem beginDelim_nat (m : modeList) (d : Nat) :
    beginDelim { mode := m, depth := (d : Int) } = some (opening m d) := by
  unfold beginDelim loopFuel
  simp only [Int.toNat_ofNat, Int.ofNat_zero_le, if_true]
  rw [beginDelimLoop_nonneg _ d (d + 1) "" (by omega), String.empty_append]
  cases m
  · simp [beginDelims, opening, join_replicate_tab]
  · simp [beginDelims, opening, join_replicate_empty]

theorem beginDelimLoop_step (delim : String) (fuel : Nat) (loopCtr : Int) (ret : String)
    (h : loopCtr ≠ 0) :
    beginDelimLoop delim (fuel + 1) loopCtr ret
      = beginDelimLoop delim fuel (decrInt loopCtr) (ret ++ delim) := by
  rw [beginDelimLoop, if_pos h]

theorem beginDelimLoop_short (delim : String) :
    ∀ (fuel n : Nat) (ret : String), fuel ≤ n →
      beginDelimLoop delim fuel (n : Int) ret = none := by
  intro fuel
  induction fuel with
  | zero => intro n ret _; rfl
  | succ f ih =>
    intro n ret h
    obtain ⟨k, rfl⟩ : ∃ k, n = k + 1 := ⟨n - 1, by omega⟩
    have hk1 : decrInt ((k + 1 : Nat) : Int) = (k : Int) := by
      unfold decrInt
      rw [if_neg (by omega)]
      omega
    rw [beginDelimLoop_step _ _ _ _ (by omega), hk1]
    exact ih k _ (by omega)

theorem beginDelimLoop_iterations (delim : String) (d fuel : Nat) (ret : String) :
    beginDelimLoop delim fuel (d : Int) ret
      = if d < fuel then some (ret ++ String.join (List.replicate d delim)) else none := by
  split_ifs with hf
  · exact beginDelimLoop_nonneg delim d fuel ret hf
  · exact beginDelimLoop_short delim fuel d ret (by omega)

theorem beginDelimLoop_below_some (delim : String) (j : Nat) :
    ∀ (fuel : Nat) (ret : String), j < 2147483648 → j + 2147483648 < fuel →
      beginDelimLoop delim fuel ((j : Int) - 2147483648) ret
        = some (ret ++ String.join (List.replicate (j + 2147483648) delim)) := by
  induction j with
  | zero =>
    intro fuel ret _ hf
    obtain ⟨f, rfl⟩ : ∃ f, fuel = f + 1 := ⟨fuel - 1, by omega⟩
    have hd : decrInt (((0 : Nat) : Int) - 2147483648) = ((2147483647 : Nat) : Int) := by
      unfold decrInt
      rw [if_pos (by omega)]
      rfl
    have e : (0 + 2147483648 : Nat) = 2147483647 + 1 := by omega
    rw [e, beginDelimLoop_step _ _ _ _ (by omega), hd,
      beginDelimLoop_nonneg _ 2147483647 f _ (by omega), join_replicate_succ]
  | succ k ih =>
    intro fuel ret hj hf
    obtain ⟨f, rfl⟩ : ∃ f, fuel = f + 1 := ⟨fuel - 1, by omega⟩
    have hd : decrInt (((k + 1 : Nat) : Int) - 2147483648) = (k : Int) - 2147483648 := by
      unfold decrInt
      rw [if_neg (by omega)]
      omega
    have e : k + 1 + 2147483648 = (k + 2147483648) + 1 := by omega
    rw [e, beginDelimLoop_step _ _ _ _ (by omega), hd, ih f _ (by omega) (by omega),
      join_replicate_succ]

theorem beginDelimLoop_below_none (delim : String) (j : Nat) :
    ∀ (fuel : Nat) (ret : String), j < 2147483648 → fuel ≤ j + 2147483648 →
      beginDelimLoop delim fuel ((j : Int) - 2147483648) ret = none := by
  induction j with
  | zero =>
    intro fuel ret _ hf
    cases fuel with
    | zero => rfl
    | succ f =>
      have hd : decrInt (((0 : Nat) : Int) - 2147483648) = ((2147483647 : Nat) : Int) := by
        unfold decrInt
        rw [if_pos (by omega)]
        rfl
      rw [beginDelimLoop_step _ _ _ _ (by omega), hd]
      exact beginDelimLoop_short _ f 2147483647 _ (by omega)
  | succ k ih =>
    intro fuel ret hj hf
    cases fuel with
    | zero => rfl
    | succ f =>
      have hd : decrInt (((k + 1 : Nat) : Int) - 2147483648) = (k : Int) - 2147483648 := by
        unfold decrInt
        rw [if_neg (by omega)]
        omega
      rw [beginDelimLoop_step _ _ _ _ (by omega), hd]
      exact ih f _ (by omega) (by omega)

theorem beginDelimLoop_wraps (delim : String) (fuel : Nat) (loopCtr : Int) (ret : String)
    (hlo : -2147483648 ≤ loopCtr) (hneg : loopCtr < 0) :
    beginDelimLoop delim fuel loopCtr ret
      = if (loopCtr + 4294967296).toNat < fuel
          then some (ret ++ String.join (List.replicate (loopCtr + 4294967296).toNat delim))
          else none := by
  obtain ⟨j, hj⟩ : ∃ j : Nat, loopCtr = (j : Int) - 2147483648 :=
    ⟨(loopCtr + 2147483648).toNat, by omega⟩
  have hn : (loopCtr + 4294967296).toNat = j + 2147483648 := by omega
  rw [hn, hj]
  split_ifs with hf
  · exact beginDelimLoop_below_some delim j fuel ret (by omega) hf
  · exact beginDelimLoop_below_none delim j fuel ret (by omega) (by omega)

theorem beginDelim_wraps (m : modeList) (depth : Int) (hlo : -2147483648 ≤ depth)
    (hneg : depth < 0) :
    beginDelim { mode := m, depth := depth }
      = some (String.join (List.replicate (depth + 4294967296).toNat (beginDelims m))) := by
  unfold beginDelim loopFuel
  simp only
  rw [if_neg (by omega), beginDelimLoop_wraps _ _ _ _ hlo hneg, if_pos (by omega),
    String.empty_append]

/-! ## The renderer computes its denotation -/

theorem incrDepth_nat (m : modeList) (d : Nat) :
    incrDepth { mode := m, depth := (d : Int) } = { mode := m, depth := ((d + 1 : Nat) : Int) } := by
  simp [incrDepth]

theorem decrDepth_nat (m : modeList) (d : Nat) :
    decrDepth { mode := m, depth := ((d + 1 : Nat) : Int) } = { mode := m, depth := (d : Int) } := by
  simp [decrDepth]

mutual

theorem processNameValue_eq (m : modeList) (d : Nat) (oBuffer name : String) (v : Value) :
    _processNameValue { mode := m, depth := (d : Int) } oBuffer name v
      = some (oBuffer ++ renderValue m d name v, { mode := m, depth := (d : Int) }) := by
  match v with
  | Value.object nameStr fields =>
    rw [_processNameValue, beginDelim_nat]
    simp only [incrDepth_nat, reflect_args_eq m (d + 1) "" nameStr fields, decrDepth_nat]
    simp [renderValue, endDelim, String.append_assoc]
  | Value.streamable text =>
    rw [_processNameValue, beginDelim_nat]
    simp [renderValue, endDelim, middleDelim, String.append_assoc]
  | Value.tuple elems =>
    rw [_processNameValue, beginDelim_nat]
    simp only [incrDepth_nat, reflectTuple_eq m (d + 1) _ name 0 elems, decrDepth_nat]
    simp [renderValue, endDelim, String.append_assoc]
  | Value.container size elems =>
    rw [_processNameValue, beginDelim_nat]
    simp only [incrDepth_nat, forLoop_eq m (d + 1) _ name 0 elems, decrDepth_nat]
    simp [renderValue, endDelim, String.append_assoc]
  | Value.unprintable =>
    rw [_processNameValue, beginDelim_nat]
    simp [renderValue, String.append_assoc]

theorem reflectTuple_eq (m : modeList) (d : Nat) (oBuffer name : String) (N : Nat)
    (elems : List Value) :
    reflectTuple { mode := m, depth := (d : Int) } oBuffer name N elems
      = some (oBuffer ++ renderElems m d name N elems, { mode := m, depth := (d : Int) }) := by
  match elems with
  | [] => simp [reflectTuple, renderElems]
  | t_N :: rest =>
    rw [reflectTuple, processNameValue_eq m d oBuffer _ t_N]
    simp only [reflectTuple_eq m d _ name (N + 1) rest]
    simp [renderElems, String.append_assoc]

theorem forLoop_eq (m : modeList) (d : Nat) (oBuffer name : String) (i : Nat)
    (elems : List Value) :
    forLoop { mode := m, depth := (d : Int) } oBuffer name i elems
      = some (oBuffer ++ renderElems m d name i elems, { mode := m, depth := (d : Int) }) := by
  match elems with
  | [] => simp [forLoop, renderElems]
  | x :: rest =>
    rw [forLoop, processNameValue_eq m d oBuffer _ x]
    simp only [forLoop_eq m d _ name (i + 1) rest]
    simp [renderElems, String.append_assoc]

theorem reflect_args_eq (m : modeList) (d : Nat) (oBuffer nameStr : String)
    (values : List Value) :
    _reflect { mode := m, depth := (d : Int) } oBuffer nameStr values
      = some (oBuffer ++ renderArgs m d nameStr values, { mode := m, depth := (d : Int) }) := by
  match values with
  | [] => simp [_reflect, renderArgs]
  | t :: tRest =>
    rw [_reflect, processNameValue_eq m d oBuffer _ t]
    simp only [reflect_args_eq m d _ (varTRest nameStr) tRest]
    simp [renderArgs, String.append_assoc]

end

theorem processNameValue_object (st : State) (oBuffer name nameStr : String) (t : Value)
    (tRest : List Value) :
    _processNameValue st oBuffer name (Value.object nameStr (t :: tRest))
      = match beginDelim st with
        | none => none
        | some b =>
          match CppReflect st nameStr t tRest with
          | none => none
          | some (ret, st2) => some (oBuffer ++ b ++ name ++ " ( Object )" ++ endDelim st ++ ret, st2) := by
  rw [_processNameValue]
  unfold CppReflect reflect
  cases beginDelim st with
  | none => rfl
  | some b =>
    simp only
    cases _reflect { incrDepth st with mode := st.mode } "" nameStr (t :: tRest) with
    | none => rfl
    | some r => rfl

theorem reflect_eq (st : State) (modeArg : modeList) (nameStr : String) (t : Value)
    (tRest : List Value) (d : Nat) (hd : st.depth = (d : Int) - 1) :
    reflect st modeArg nameStr t tRest
      = some (renderArgs modeArg d nameStr (t :: tRest), { mode := modeArg, depth := st.depth }) := by
  have h1 : ({ incrDepth st with mode := modeArg } : State)
      = { mode := modeArg, depth := (d : Int) } := by
    simp [incrDepth, hd]
  unfold reflect
  simp only [h1, reflect_args_eq]
  simp [decrDepth, hd]

theorem renderArgs_eq_join (m : modeList) (d : Nat) (values : List Value) :
    ∀ (nameStr : String) (i : Nat), renderArgs m d (varTRest^[i] nameStr) values
      = String.join ((values.enumFrom i).map
          (fun p => renderValue m d (nameAt nameStr p.1) p.2)) := by
  induction values with
  | nil => intro nameStr i; simp [renderArgs, join_nil]
  | cons t tRest ih =>
    intro nameStr i
    have h := ih nameStr (i + 1)
    rw [Function.iterate_succ_apply'] at h
    simp [renderArgs, join_cons, h, List.enumFrom, nameAt]

theorem forall₂_enum_render (m : modeList) (d : Nat) (nm : Nat → String) (elems : List Value) :
    List.Forall₂
      (fun (p : Nat × Value) (s : String) =>
        _processNameValue { mode := m, depth := (d : Int) } "" (nm p.1) p.2
          = some (s, { mode := m, depth := (d : Int) }))
      elems.enum (elems.enum.map (fun p => renderValue m d (nm p.1) p.2)) := by
  rw [List.forall₂_map_right_iff, List.forall₂_same]
  intro p _
  rw [processNameValue_eq, String.empty_append]

theorem state_eq_of_nonneg (st : State) (h : 0 ≤ st.depth) :
    st = { mode := st.mode, depth := ((st.depth.toNat : Nat) : Int) } := by
  cases st with
  | mk m d => simp only [State.mk.injEq, true_and]; exact (Int.toNat_of_nonneg h).symm

theorem reflect_returns (st : State) (modeArg : modeList) (nameStr : String) (t : Value)
    (tRest : List Value) (h : -1 ≤ st.depth) :
    reflect st modeArg nameStr t tRest
      = some (renderArgs modeArg (st.depth + 1).toNat nameStr (t :: tRest),
          { mode := modeArg, depth := st.depth }) :=
  reflect_eq st modeArg nameStr t tRest (st.depth + 1).toNat
    (by rw [Int.toNat_of_nonneg (by omega)]; omega)

/-! ## Newlines in the rendered text -/

theorem noNewline_iff (s : String) : noNewline s = true ↔ '\n' ∉ s.data := by
  simp [noNewline, List.all_eq_true]
  constructor
  · intro h hm; exact h _ hm rfl
  · intro h x hx hxe; exact h (hxe ▸ hx)

theorem nl_append (a b : String) :
    '\n' ∉ (a ++ b).data ↔ '\n' ∉ a.data ∧ '\n' ∉ b.data := by
  simp [String.data_append, not_or]

theorem digitChar_ne_newline : ∀ k : Nat, k < 10 → Nat.digitChar k ≠ '\n' := by
  decide

theorem nl_toDigitsCore (f : Nat) :
    ∀ (n : Nat) (acc : List Char), '\n' ∉ acc → '\n' ∉ Nat.toDigitsCore 10 f n acc := by
  induction f with
  | zero => intro n acc h; simpa [Nat.toDigitsCore] using h
  | succ k ih =>
    intro n acc h
    have hc : '\n' ∉ Nat.digitChar (n % 10) :: acc := by
      simp only [List.mem_cons, not_or]
      exact ⟨fun e => digitChar_ne_newline _ (Nat.mod_lt n (by decide)) e.symm, h⟩
    simp only [Nat.toDigitsCore]
    split_ifs
    · exact hc
    · exact ih _ _ hc

theorem nl_toString (n : Nat) : '\n' ∉ (toString n).data := by
  show '\n' ∉ (Nat.repr n).data
  simp only [Nat.repr, Nat.toDigits, List.asString]
  exact nl_toDigitsCore _ _ _ (by simp)

theorem nl_varTElem (name : String) (i : Nat) (h : '\n' ∉ name.data) :
    '\n' ∉ (varTElem name i).data := by
  unfold varTElem
  simp only [nl_append]
  exact ⟨⟨⟨h, by decide⟩, nl_toString i⟩, by decide⟩

theorem nl_varT (nameStr : String) (h : '\n' ∉ nameStr.data) : '\n' ∉ (varT nameStr).data := by
  unfold varT eraseSpaces varTRaw
  split
  · intro hm
    exact h (List.mem_of_mem_take (List.mem_filter.mp hm).1)
  · intro hm
    exact h (List.mem_filter.mp hm).1

theorem nl_varTRest (nameStr : String) (h : '\n' ∉ nameStr.data) :
    '\n' ∉ (varTRest nameStr).data := by
  unfold varTRest
  split
  · intro hm
    exact h (List.mem_of_mem_drop hm)
  · decide

mutual

theorem nl_renderValue (d : Nat) (name : String) (v : Value) (hn : '\n' ∉ name.data)
    (hv : Value.newlineFree v = true) : '\n' ∉ (renderValue modeList.CSV d name v).data := by
  match v with
  | Value.object nameStr fields =>
    simp only [Value.newlineFree, Bool.and_eq_true, noNewline_iff] at hv
    simp only [renderValue, nl_append, opening, endDelims]
    exact ⟨⟨⟨⟨by decide, hn⟩, by decide⟩, by decide⟩, nl_renderArgs (d + 1) nameStr fields hv.1 hv.2⟩
  | Value.streamable text =>
    simp only [Value.newlineFree, noNewline_iff] at hv
    simp only [renderValue, nl_append, opening, endDelims, middleDelims]
    exact ⟨⟨⟨⟨by decide, hn⟩, by decide⟩, hv⟩, by decide⟩
  | Value.tuple elems =>
    simp only [Value.newlineFree] at hv
    simp only [renderValue, nl_append, opening, endDelims]
    exact ⟨⟨⟨⟨⟨⟨by decide, hn⟩, by decide⟩, nl_toString _⟩, by decide⟩, by decide⟩,
      nl_renderElems (d + 1) name 0 elems hn hv⟩
  | Value.container size elems =>
    simp only [Value.newlineFree] at hv
    simp only [renderValue, nl_append, opening, endDelims]
    exact ⟨⟨⟨⟨⟨⟨by decide, hn⟩, by decide⟩, nl_toString _⟩, by decide⟩, by decide⟩,
      nl_renderElems (d + 1) name 0 elems hn hv⟩
  | Value.unprintable => simp [Value.newlineFree] at hv

theorem nl_renderElems (d : Nat) (name : String) (i : Nat) (elems : List Value)
    (hn : '\n' ∉ name.data) (hv : Value.newlineFreeList elems = true) :
    '\n' ∉ (renderElems modeList.CSV d name i elems).data := by
  match elems with
  | [] => simp only [renderElems]; decide
  | x :: rest =>
    simp only [Value.newlineFreeList, Bool.and_eq_true] at hv
    simp only [renderElems, nl_append]
    exact ⟨nl_renderValue d _ x (nl_varTElem name i hn) hv.1,
      nl_renderElems d name (i + 1) rest hn hv.2⟩

theorem nl_renderArgs (d : Nat) (nameStr : String) (values : List Value)
    (hn : '\n' ∉ nameStr.data) (hv : Value.newlineFreeList values = true) :
    '\n' ∉ (renderArgs modeList.CSV d nameStr values).data := by
  match values with
  | [] => simp only [renderArgs]; decide
  | t :: tRest =>
    simp only [Value.newlineFreeList, Bool.and_eq_true] at hv
    simp only [renderArgs, nl_append]
    exact ⟨nl_renderValue d _ t (nl_varT nameStr hn) hv.1,
      nl_renderArgs d _ tRest (nl_varTRest nameStr hn) hv.2⟩

end

/-! ## Name splitting and the segments of the name text -/

theorem specSegments_ne_nil (l : List Char) : specSegments l ≠ [] := by
  cases l with
  | nil => simp [specSegments]
  | cons c cs =>
    rw [specSegments]
    split_ifs
    · simp
    · split <;> simp

theorem specSegments_of_find_none :
    ∀ l : List Char, find ',' l = none → specSegments l = [l] := by
  intro l
  induction l with
  | nil => intro _; rfl
  | cons c cs ih =>
    intro h
    rw [find] at h
    split_ifs at h with hc
    rw [Option.map_eq_none'] at h
    rw [specSegments, if_neg hc, ih h]

theorem specSegments_of_find_some :
    ∀ (l : List Char) (pos : Nat), find ',' l = some pos →
      specSegments l = l.take pos :: specSegments (l.drop (pos + 1)) := by
  intro l
  induction l with
  | nil => intro pos h; simp [find] at h
  | cons c cs ih =>
    intro pos h
    rw [find] at h
    split_ifs at h with hc
    · cases h
      rw [specSegments, if_pos hc]
      rfl
    · rw [Option.map_eq_some'] at h
      obtain ⟨q, hq, rfl⟩ := h
      rw [specSegments, if_neg hc, ih q hq]
      rfl

theorem specSegments_append_comma (a b : List Char) :
    specSegments (a ++ ',' :: b) = specSegments a ++ specSegments b := by
  induction a with
  | nil => simp [specSegments]
  | cons c cs ih =>
    rw [List.cons_append, specSegments, specSegments, ih]
    split_ifs
    · rfl
    · obtain ⟨seg, segs, hs⟩ := List.exists_cons_of_ne_nil (specSegments_ne_nil cs)
      rw [hs]
      rfl

theorem varTRaw_data (nameStr : String) :
    (varTRaw nameStr).data = (specSegments nameStr.data).getD 0 [] := by
  unfold varTRaw
  split
  · next pos h => rw [specSegments_of_find_some _ _ h]; rfl
  · next h => rw [specSegments_of_find_none _ h]; rfl

theorem specSegments_varTRest (nameStr : String) (j : Nat) :
    (specSegments (varTRest nameStr).data).getD j []
      = (specSegments nameStr.data).getD (j + 1) [] := by
  unfold varTRest
  split
  · next pos h => rw [specSegments_of_find_some _ _ h]; rfl
  · next h =>
    rw [specSegments_of_find_none _ h]
    cases j <;> rfl

theorem nameAt_eq_specName (i : Nat) :
    ∀ nameStr : String, nameAt nameStr i = specName nameStr i := by
  induction i with
  | zero =>
    intro nameStr
    simp only [nameAt, Function.iterate_zero, id_eq, varT, eraseSpaces, specName, varTRaw_data]
  | succ k ih =>
    intro nameStr
    have h := ih (varTRest nameStr)
    simp only [nameAt, specName, specSegments_varTRest] at h
    simpa only [nameAt, Function.iterate_succ_apply, specName] using h

theorem specName_beyond (nameStr : String) (k : Nat) :
    specName nameStr ((specSegments nameStr.data).length + k) = "" := by
  unfold specName
  rw [List.getD_eq_default _ _ (by omega)]
  rfl

theorem renderArgs_congr (m : modeList) (d : Nat) (s1 s2 : String) (values : List Value)
    (h : ∀ i, i < values.length → nameAt s1 i = nameAt s2 i) :
    renderArgs m d s1 values = renderArgs m d s2 values := by
  have e1 := renderArgs_eq_join m d values s1 0
  have e2 := renderArgs_eq_join m d values s2 0
  simp only [Function.iterate_zero, id_eq] at e1 e2
  rw [e1, e2]
  congr 1
  apply List.map_congr_left
  intro p hp
  rw [h p.1 (List.fst_lt_of_mem_enum hp)]

theorem specName_eq_of_take (s1 s2 : String) (n : Nat)
    (h : (specSegments s1.data).take n = (specSegments s2.data).take n) (i : Nat) (hi : i < n) :
    specName s1 i = specName s2 i := by
  have e : (specSegments s1.data)[i]? = (specSegments s2.data)[i]? := by
    rw [← List.getElem?_take_of_lt hi, h, List.getElem?_take_of_lt hi]
  simp only [specName, List.getD_eq_getElem?_getD, e]

mutual

theorem renderValue_csv_depth (d1 d2 : Nat) (name : String) (v : Value) :
    renderValue modeList.CSV d1 name v = renderValue modeList.CSV d2 name v := by
  match v with
  | Value.object nameStr fields =>
    simp only [renderValue, opening, renderArgs_csv_depth (d1 + 1) (d2 + 1) nameStr fields]
  | Value.streamable text => simp only [renderValue, opening]
  | Value.tuple elems =>
    simp only [renderValue, opening, renderElems_csv_depth (d1 + 1) (d2 + 1) name 0 elems]
  | Value.container size elems =>
    simp only [renderValue, opening, renderElems_csv_depth (d1 + 1) (d2 + 1) name 0 elems]
  | Value.unprintable => simp only [renderValue, opening]

theorem renderElems_csv_depth (d1 d2 : Nat) (name : String) (i : Nat) (elems : List Value) :
    renderElems modeList.CSV d1 name i elems = renderElems modeList.CSV d2 name i elems := by
  match elems with
  | [] => simp only [renderElems]
  | x :: rest =>
    simp only [renderElems, renderValue_csv_depth d1 d2 _ x,
      renderElems_csv_depth d1 d2 name (i + 1) rest]

theorem renderArgs_csv_depth (d1 d2 : Nat) (nameStr : String) (values : List Value) :
    renderArgs modeList.CSV d1 nameStr values = renderArgs modeList.CSV d2 nameStr values := by
  match values with
  | [] => simp only [renderArgs]
  | t :: tRest =>
    simp only [renderArgs, renderValue_csv_depth d1 d2 _ t,
      renderArgs_csv_depth d1 d2 _ tRest]

end

/-! ## The general embedding on plain values -/

namespace General

theorem beginDelim_recorded (m : modeList) (d : Nat) (seen : List Int) :
    beginDelim { st := { mode := m, depth := (d : Int) }, seen := seen }
      = some (opening m d,
          { st := { mode := m, depth := (d : Int) }, seen := (d : Int) :: seen }) := by
  simp only [beginDelim, CppReflection.beginDelim_nat]

theorem putNat_dec (fmt : Fmt) (n : Nat) (h : fmt.basefield = Base.dec) :
    fmt.putNat n = toString n := by
  simp only [Fmt.putNat, h]

theorem plainList_eq_map (vs : List CppReflection.Value) : plainList vs = vs.map plain := by
  induction vs with
  | nil => rfl
  | cons v vs ih => rw [plainList, ih, List.map_cons]

theorem plainList_length (vs : List CppReflection.Value) : (plainList vs).length = vs.length := by
  rw [plainList_eq_map, List.length_map]

mutual

theorem processNameValue_plain (m : modeList) (d : Nat) (seen : List Int) (buf : String)
    (fmt : Fmt) (name : String) (v : CppReflection.Value) (hfmt : fmt.basefield = Base.dec) :
    ∃ seen1, _processNameValue { st := { mode := m, depth := (d : Int) }, seen := seen }
        { str := buf, fmt := fmt } name (plain v)
      = some ({ str := buf ++ renderValue m d name v, fmt := fmt },
          { st := { mode := m, depth := (d : Int) }, seen := seen1 }) := by
  match v with
  | CppReflection.Value.object nameStr fields =>
    obtain ⟨s1, h1⟩ := reflect_args_plain m (d + 1) ((d : Int) :: seen) "" Fmt.fresh nameStr
      fields rfl
    refine ⟨s1, ?_⟩
    simp only [plain, _processNameValue, beginDelim_recorded, Option.getD_none, incrDepth_nat,
      OStream.fresh, h1, decrDepth_nat, OStream.put]
    simp [renderValue, endDelim, String.append_assoc]
  | CppReflection.Value.streamable text =>
    refine ⟨(d : Int) :: seen, ?_⟩
    simp only [plain, _processNameValue, beginDelim_recorded, OStream.put]
    simp [renderValue, endDelim, middleDelim, String.append_assoc]
  | CppReflection.Value.tuple elems =>
    obtain ⟨s1, h1⟩ := reflectTuple_plain m (d + 1) ((d : Int) :: seen)
      (buf ++ (opening m d ++ name ++ " ( Tuple with " ++ toString elems.length
        ++ " elements )" ++ endDelims m)) fmt name 0 elems hfmt
    refine ⟨s1, ?_⟩
    simp only [plain, _processNameValue, beginDelim_recorded, incrDepth_nat, OStream.put,
      putNat_dec _ _ hfmt, plainList_length, endDelim, h1, decrDepth_nat]
    simp [renderValue, String.append_assoc]
  | CppReflection.Value.container size elems =>
    obtain ⟨s1, h1⟩ := forLoop_plain m (d + 1) ((d : Int) :: seen)
      (buf ++ (opening m d ++ name ++ " ( Container with " ++ toString size
        ++ " elements )" ++ endDelims m)) fmt name 0 elems hfmt
    refine ⟨s1, ?_⟩
    simp only [plain, _processNameValue, beginDelim_recorded, incrDepth_nat, OStream.put,
      putNat_dec _ _ hfmt, endDelim, h1, decrDepth_nat]
    simp [renderValue, String.append_assoc]
  | CppReflection.Value.unprintable =>
    refine ⟨(d : Int) :: seen, ?_⟩
    simp only [plain, _processNameValue, beginDelim_recorded, OStream.put]
    simp [renderValue, String.append_assoc]

theorem reflectTuple_plain (m : modeList) (d : Nat) (seen : List Int) (buf : String)
    (fmt : Fmt) (name : String) (N : Nat) (elems : List CppReflection.Value)
    (hfmt : fmt.basefield = Base.dec) :
    ∃ seen1, reflectTuple { st := { mode := m, depth := (d : Int) }, seen := seen }
        { str := buf, fmt := fmt } name N (plainList elems)
      = some ({ str := buf ++ renderElems m d name N elems, fmt := fmt },
          { st := { mode := m, depth := (d : Int) }, seen := seen1 }) := by
  match elems with
  | [] => exact ⟨seen, by simp [plainList, reflectTuple, renderElems]⟩
  | t_N :: rest =>
    obtain ⟨s1, h1⟩ := processNameValue_plain m d seen buf fmt (varTElem name N) t_N hfmt
    obtain ⟨s2, h2⟩ := reflectTuple_plain m d s1 (buf ++ renderValue m d (varTElem name N) t_N)
      fmt name (N + 1) rest hfmt
    refine ⟨s2, ?_⟩
    simp only [plainList, reflectTuple, h1, h2]
    simp [renderElems, String.append_assoc]

theorem forLoop_plain (m : modeList) (d : Nat) (seen : List Int) (buf : String)
    (fmt : Fmt) (name : String) (i : Nat) (elems : List CppReflection.Value)
    (hfmt : fmt.basefield = Base.dec) :
    ∃ seen1, forLoop { st := { mode := m, depth := (d : Int) }, seen := seen }
        { str := buf, fmt := fmt } name i (plainList elems)
      = some ({ str := buf ++ renderElems m d name i elems, fmt := fmt },
          { st := { mode := m, depth := (d : Int) }, seen := seen1 }) := by
  match elems with
  | [] => exact ⟨seen, by simp [plainList, forLoop, renderElems]⟩
  | x :: rest =>
    obtain ⟨s1, h1⟩ := processNameValue_plain m d seen buf fmt (varTElem name i) x hfmt
    obtain ⟨s2, h2⟩ := forLoop_plain m d s1 (buf ++ renderValue m d (varTElem name i) x)
      fmt name (i + 1) rest hfmt
    refine ⟨s2, ?_⟩
    simp only [plainList, forLoop, h1, h2]
    simp [renderElems, String.append_assoc]

theorem reflect_args_plain (m : modeList) (d : Nat) (seen : List Int) (buf : String)
    (fmt : Fmt) (nameStr : String) (values : List CppReflection.Value)
    (hfmt : fmt.basefield = Base.dec) :
    ∃ seen1, _reflect { st := { mode := m, depth := (d : Int) }, seen := seen }
        { str := buf, fmt := fmt } nameStr (plainList values)
      = some ({ str := buf ++ renderArgs m d nameStr values, fmt := fmt },
          { st := { mode := m, depth := (d : Int) }, seen := seen1 }) := by
  match values with
  | [] => exact ⟨seen, by simp [plainList, _reflect, renderArgs]⟩
  | t :: tRest =>
    obtain ⟨s1, h1⟩ := processNameValue_plain m d seen buf fmt (varT nameStr) t hfmt
    obtain ⟨s2, h2⟩ := reflect_args_plain m d s1 (buf ++ renderValue m d (varT nameStr) t)
      fmt (varTRest nameStr) tRest hfmt
    refine ⟨s2, ?_⟩
    simp only [plainList, _reflect, h1, h2]
    simp [renderArgs, String.append_assoc]

end

theorem processNameValue_object_macro (r : Run) (oBuffer : OStream) (name nameStr : String)
    (entry : Option modeList) (t : Value) (tRest : List Value) :
    _processNameValue r oBuffer name (Value.object entry nameStr (t :: tRest))
      = match beginDelim r with
        | none => none
        | some (b, r1) =>
          match reflect r1 (entry.getD r1.st.mode) nameStr t tRest with
          | none => none
          | some (ret, r2) =>
            some ((oBuffer.put (b ++ name ++ " ( Object )" ++ endDelim r1.st)).put ret, r2) := by
  rw [_processNameValue]
  unfold reflect
  cases beginDelim r with
  | none => rfl
  | some p =>
    simp only
    cases _reflect { p.2 with st := { incrDepth p.2.st with mode := entry.getD p.2.st.mode } }
      OStream.fresh nameStr (t :: tRest) with
    | none => rfl
    | some q => rfl

/-! ### Every value: the depth is restored and `beginDelim` never sees a negative depth -/

theorem seen_cons (d : Nat) (seen : List Int) (hs : ∀ x ∈ seen, (0 : Int) ≤ x) :
    ∀ x ∈ (d : Int) :: seen, (0 : Int) ≤ x := by
  intro x hx
  rcases List.mem_cons.mp hx with h | h
  · rw [h]; exact Int.ofNat_zero_le d
  · exact hs x h

mutual

theorem processNameValue_seen (g : Value) (m : modeList) (d : Nat) (seen : List Int)
    (o : OStream) (name : String) (hs : ∀ x ∈ seen, (0 : Int) ≤ x) :
    ∃ o1 m1 seen1,
      _processNameValue { st := { mode := m, depth := (d : Int) }, seen := seen } o name g
        = some (o1, { st := { mode := m1, depth := (d : Int) }, seen := seen1 }) ∧
      (∀ x ∈ seen1, (0 : Int) ≤ x) ∧ seen.length < seen1.length := by
  match g with
  | Value.object entry nameStr fields =>
    obtain ⟨o1, m1, s1, h1, h2, h3⟩ := reflect_args_seen fields (entry.getD m) (d + 1)
      ((d : Int) :: seen) OStream.fresh nameStr (seen_cons d seen hs)
    refine ⟨(o.put (opening m d ++ name ++ " ( Object )"
        ++ endDelim { mode := m, depth := (d : Int) })).put o1.str,
      m1, s1, ?_, h2, by simp only [List.length_cons] at h3; omega⟩
    simp only [_processNameValue, beginDelim_recorded, incrDepth_nat, h1, decrDepth_nat]
  | Value.streamable ins =>
    refine ⟨OStream.put
        { str := (o.put (opening m d ++ name
              ++ middleDelim { mode := m, depth := (d : Int) })).str
            ++ (ins (o.put (opening m d ++ name
              ++ middleDelim { mode := m, depth := (d : Int) })).fmt).1,
          fmt := (ins (o.put (opening m d ++ name
              ++ middleDelim { mode := m, depth := (d : Int) })).fmt).2 }
        (endDelim { mode := m, depth := (d : Int) }),
      m, (d : Int) :: seen, ?_, seen_cons d seen hs, by simp⟩
    simp only [_processNameValue, beginDelim_recorded]
  | Value.tuple elems =>
    obtain ⟨o1, m1, s1, h1, h2, h3⟩ := reflectTuple_seen elems m (d + 1) ((d : Int) :: seen)
      (o.put (opening m d ++ name ++ " ( Tuple with " ++ o.fmt.putNat elems.length
        ++ " elements )" ++ endDelim { mode := m, depth := (d : Int) })) name 0
      (seen_cons d seen hs)
    refine ⟨o1, m1, s1, ?_, h2, by simp only [List.length_cons] at h3; omega⟩
    simp only [_processNameValue, beginDelim_recorded, incrDepth_nat, h1, decrDepth_nat]
  | Value.container size elems =>
    obtain ⟨o1, m1, s1, h1, h2, h3⟩ := forLoop_seen elems m (d + 1) ((d : Int) :: seen)
      (o.put (opening m d ++ name ++ " ( Container with " ++ o.fmt.putNat size
        ++ " elements )" ++ endDelim { mode := m, depth := (d : Int) })) name 0
      (seen_cons d seen hs)
    refine ⟨o1, m1, s1, ?_, h2, by simp only [List.length_cons] at h3; omega⟩
    simp only [_processNameValue, beginDelim_recorded, incrDepth_nat, h1, decrDepth_nat]
  | Value.unprintable =>
    refine ⟨o.put (opening m d ++ name ++ " can't be printed. \n "), m, (d : Int) :: seen, ?_,
      seen_cons d seen hs, by simp⟩
    simp only [_processNameValue, beginDelim_recorded]

theorem reflectTuple_seen (gs : List Value) (m : modeList) (d : Nat) (seen : List Int)
    (o : OStream) (name : String) (N : Nat) (hs : ∀ x ∈ seen, (0 : Int) ≤ x) :
    ∃ o1 m1 seen1,
      reflectTuple { st := { mode := m, depth := (d : Int) }, seen := seen } o name N gs
        = some (o1, { st := { mode := m1, depth := (d : Int) }, seen := seen1 }) ∧
      (∀ x ∈ seen1, (0 : Int) ≤ x) ∧ seen.length ≤ seen1.length := by
  match gs with
  | [] => exact ⟨o, m, seen, by simp only [reflectTuple], hs, Nat.le_refl _⟩
  | t_N :: rest =>
    obtain ⟨o1, m1, s1, h1, h2, h3⟩ := processNameValue_seen t_N m d seen o (varTElem name N) hs
    obtain ⟨o2, m2, s2, k1, k2, k3⟩ := reflectTuple_seen rest m1 d s1 o1 name (N + 1) h2
    exact ⟨o2, m2, s2, by simp only [reflectTuple, h1, k1], k2, by omega⟩

theorem forLoop_seen (gs : List Value) (m : modeList) (d : Nat) (seen : List Int)
    (o : OStream) (name : String) (i : Nat) (hs : ∀ x ∈ seen, (0 : Int) ≤ x) :
    ∃ o1 m1 seen1,
      forLoop { st := { mode := m, depth := (d : Int) }, seen := seen } o name i gs
        = some (o1, { st := { mode := m1, depth := (d : Int) }, seen := seen1 }) ∧
      (∀ x ∈ seen1, (0 : Int) ≤ x) ∧ seen.length ≤ seen1.length := by
  match gs with
  | [] => exact ⟨o, m, seen, by simp only [forLoop], hs, Nat.le_refl _⟩
  | x :: rest =>
    obtain ⟨o1, m1, s1, h1, h2, h3⟩ := processNameValue_seen x m d seen o (varTElem name i) hs
    obtain ⟨o2, m2, s2, k1, k2, k3⟩ := forLoop_seen rest m1 d s1 o1 name (i + 1) h2
    exact ⟨o2, m2, s2, by simp only [forLoop, h1, k1], k2, by omega⟩

theorem reflect_args_seen (gs : List Value) (m : modeList) (d : Nat) (seen : List Int)
    (o : OStream) (nameStr : String) (hs : ∀ x ∈ seen, (0 : Int) ≤ x) :
    ∃ o1 m1 seen1,
      _reflect { st := { mode := m, depth := (d : Int) }, seen := seen } o nameStr gs
        = some (o1, { st := { mode := m1, depth := (d : Int) }, seen := seen1 }) ∧
      (∀ x ∈ seen1, (0 : Int) ≤ x) ∧ seen.length ≤ seen1.length := by
  match gs with
  | [] => exact ⟨o, m, seen, by simp only [_reflect], hs, Nat.le_refl _⟩
  | t :: tRest =>
    obtain ⟨o1, m1, s1, h1, h2, h3⟩ := processNameValue_seen t m d seen o (varT nameStr) hs
    obtain ⟨o2, m2, s2, k1, k2, k3⟩ := reflect_args_seen tRest m1 d s1 o1 (varTRest nameStr) h2
    exact ⟨o2, m2, s2, by simp only [_reflect, h1, k1], k2, by omega⟩

end

theorem reflect_seen (modeArg m0 : modeList) (nameStr : String) (t : Value)
    (tRest : List Value) (d : Nat) (seen : List Int) (hs : ∀ x ∈ seen, (0 : Int) ≤ x) :
    ∃ text m1 seen1,
      reflect { st := { mode := m0, depth := (d : Int) - 1 }, seen := seen } modeArg nameStr
          t tRest
        = some (text, { st := { mode := m1, depth := (d : Int) - 1 }, seen := seen1 }) ∧
      (∀ x ∈ seen1, (0 : Int) ≤ x) ∧ seen.length < seen1.length := by
  have e1 : (d : Int) - 1 + 1 = (d : Int) := by omega
  obtain ⟨o1, m1, s1, h1, h2, h3⟩ := processNameValue_seen t modeArg d seen OStream.fresh
    (varT nameStr) hs
  obtain ⟨o2, m2, s2, k1, k2, k3⟩ := reflect_args_seen tRest m1 d s1 o1 (varTRest nameStr) h2
  refine ⟨o2.str, m2, s2, ?_, k2, by omega⟩
  unfold reflect
  simp only [incrDepth, e1, _reflect, h1, k1, decrDepth]

end General

/-! ## Claims -/

/-- C3: for a directly streamable value with text `s`, `reflect(List, "p", P)` from
the initial state (`depth = -1`) returns exactly `"p = " ++ s ++ "\n"`, with no
indent character in front, and leaves the state as it was. -/
theorem C3_reflect_list_primitive (s : String) :
    reflect State.initial modeList.List "p" (Value.streamable s) []
      = some ("p = " ++ s ++ "\n", State.initial) := by
  rw [reflect_eq State.initial modeList.List "p" _ _ 0 (by decide)]
  have hp : varT "p" = "p" := by decide
  simp [renderArgs, renderValue, hp, opening, middleDelims, endDelims, State.initial,
    String.append_assoc]

/-- C4: for every depth `D ≥ 0`, in List mode `beginDelim` returns the tab
character repeated exactly `D` times, `middleDelim` returns `" = "` and `endDelim`
returns `"\n"`; in CSV mode `beginDelim` returns the empty string and `middleDelim`
and `endDelim` both return `" , "`. -/
theorem C4_delimiters (D : Nat) :
    beginDelim { mode := modeList.List, depth := (D : Int) }
        = some (String.mk (List.replicate D '\t')) ∧
      middleDelim { mode := modeList.List, depth := (D : Int) } = " = " ∧
      endDelim { mode := modeList.List, depth := (D : Int) } = "\n" ∧
      beginDelim { mode := modeList.CSV, depth := (D : Int) } = some "" ∧
      middleDelim { mode := modeList.CSV, depth := (D : Int) } = " , " ∧
      endDelim { mode := modeList.CSV, depth := (D : Int) } = " , " :=
  ⟨beginDelim_nat modeList.List D, rfl, rfl, beginDelim_nat modeList.CSV D, rfl, rfl⟩

/-- C6 as stated fails: the text returned for an unrenderable value named `x` is not
`"x can't be printed.\n"`. -/
theorem C6_counterexample :
    (reflect State.initial modeList.List "x" Value.unprintable []).map Prod.fst
      ≠ some "x can't be printed.\n" := by
  decide

/-- C6 amended: for an unrenderable value, every name and both modes, rendering at
depth 0 writes exactly the name followed by `" can't be printed. \n "`: a space
stands between the full stop and the newline, and one space follows the newline.
Through `reflect` from depth `-1` the name is `varT nameStr`. -/
theorem C6_unprintable_message (m m0 : modeList) (name nameStr : String) :
    _processNameValue { mode := m, depth := 0 } "" name Value.unprintable
        = some (name ++ " can't be printed. \n ", { mode := m, depth := 0 }) ∧
      reflect { mode := m0, depth := -1 } m nameStr Value.unprintable []
        = some (varT nameStr ++ " can't be printed. \n ", { mode := m, depth := -1 }) := by
  constructor
  · have h := processNameValue_eq m 0 "" name Value.unprintable
    simp only [Nat.cast_zero] at h
    rw [h, renderValue]
    cases m <;> simp [opening]
  · rw [reflect_eq _ m nameStr _ _ 0 (by simp)]
    cases m <;> simp [renderArgs, renderValue, opening]

/-- C8: nesting depth is net zero across every call. From a state with
`depth ≥ -1`, `reflect` returns, and with `depth` equal to its value at entry; from
a state with `depth ≥ 0`, `_processNameValue` returns for every value (tuples and
containers included) and leaves the state as it found it. -/
theorem C8_depth_net_zero (st st1 : State) (modeArg : modeList) (nameStr oBuffer name : String)
    (t v : Value) (tRest : List Value) (h : -1 ≤ st.depth) (h1 : 0 ≤ st1.depth) :
    (∃ text st2, reflect st modeArg nameStr t tRest = some (text, st2)
        ∧ st2.depth = st.depth) ∧
      (∃ out, _processNameValue st1 oBuffer name v = some (out, st1)) := by
  constructor
  · exact ⟨_, _, reflect_returns st modeArg nameStr t tRest h, rfl⟩
  · rw [state_eq_of_nonneg st1 h1]
    exact ⟨_, processNameValue_eq _ _ _ _ _⟩

/-- C8 at a nested pack rendered from the initial state and at a container rendered
at depth 2. -/
theorem C8_depth_net_zero_witness :
    (-1 : Int) ≤ State.initial.depth ∧
    (0 : Int) ≤ (State.mk modeList.CSV 2).depth ∧
    ((∃ text st2, reflect State.initial modeList.List "a, b"
          (Value.tuple [Value.streamable "1", Value.container 1 [Value.unprintable]])
          [Value.object "c" [Value.streamable "2"]] = some (text, st2)
        ∧ st2.depth = State.initial.depth) ∧
      (∃ out, _processNameValue (State.mk modeList.CSV 2) "" "x"
          (Value.container 2 [Value.tuple [], Value.streamable "3"])
        = some (out, State.mk modeList.CSV 2))) :=
  ⟨by decide, by decide,
    C8_depth_net_zero State.initial (State.mk modeList.CSV 2) modeList.List "a, b" "" "x"
      (Value.tuple [Value.streamable "1", Value.container 1 [Value.unprintable]])
      (Value.container 2 [Value.tuple [], Value.streamable "3"])
      [Value.object "c" [Value.streamable "2"]] (by decide) (by decide)⟩

/-- C9: from any state with `depth ≥ -1`, calling `reflect` twice in sequence with
the same mode, name text and values returns the same text both times. -/
theorem C9_reflect_twice_same_text (st : State) (modeArg : modeList) (nameStr : String)
    (t : Value) (tRest : List Value) (h : -1 ≤ st.depth) :
    ∃ text st1 st2,
      reflect st modeArg nameStr t tRest = some (text, st1) ∧
      reflect st1 modeArg nameStr t tRest = some (text, st2) := by
  exact ⟨_, _, { mode := modeArg, depth := st.depth },
    reflect_returns st modeArg nameStr t tRest h,
    reflect_returns { mode := modeArg, depth := st.depth } modeArg nameStr t tRest h⟩

/-- C9 at a tuple and an object, starting from `mode = CSV`, `depth = 0`. -/
theorem C9_reflect_twice_same_text_witness :
    (-1 : Int) ≤ (State.mk modeList.CSV 0).depth ∧
    ∃ text st1 st2,
      reflect (State.mk modeList.CSV 0) modeList.List "var9, var10"
          (Value.tuple [Value.streamable "California", Value.streamable "94115"])
          [Value.object "a,b" [Value.streamable "212100", Value.streamable "&"]]
        = some (text, st1) ∧
      reflect st1 modeList.List "var9, var10"
          (Value.tuple [Value.streamable "California", Value.streamable "94115"])
          [Value.object "a,b" [Value.streamable "212100", Value.streamable "&"]]
        = some (text, st2) :=
  ⟨by decide,
    C9_reflect_twice_same_text (State.mk modeList.CSV 0) modeList.List "var9, var10"
      (Value.tuple [Value.streamable "California", Value.streamable "94115"])
      [Value.object "a,b" [Value.streamable "212100", Value.streamable "&"]] (by decide)⟩

/-- C10 at the failing input: for a type that has `reflect()` and a free
`operator<<` and nothing else, two overloads of `_processNameValue` are enabled,
`has_reflect` and `has_ltlt`, so the call is ambiguous instead of going to the
self-describing overload alone. -/
theorem C10_reflect_and_ltlt_both_enabled :
    enabledOverloads
        { test_ltlt1 := false, test_ltlt2 := true, test_reflectAPI := true,
          test_begin := false, test_end := false, test_size := false, test_tuple := false }
      = [Overload.has_reflect, Overload.has_ltlt] := by
  decide

/-- C11: a type with a `tuple_size` that also meets the container criteria (not
streamable, has `size`, `begin` and `end`) gets `is_container = true` and
`is_tuple = false`; and for no type are `is_tuple` and `is_container` both true. -/
theorem C11_container_before_tuple (p : stream_var) (ht : p.test_tuple = true)
    (hl : p.has_ltlt = false) (hs : p.has_size = true) (hb : p.has_begin = true)
    (he : p.has_end = true) :
    (p.is_container = true ∧ p.is_tuple = false) ∧
      ∀ q : stream_var, ¬ (q.is_tuple = true ∧ q.is_container = true) := by
  refine ⟨?_, ?_⟩
  · simp [stream_var.is_tuple, stream_var.is_container, ht, hl, hs, hb, he]
  · intro q hq
    simp only [stream_var.is_tuple, Bool.and_eq_true, Bool.not_eq_true'] at hq
    rw [hq.2] at hq
    exact Bool.noConfusion hq.1.2

/-- C11 at `std::array<int,3>`, the element type of `var8` in `test.cpp`. -/
theorem C11_container_before_tuple_witness :
    (stream_var.mk false false false true true true true).test_tuple = true ∧
    (stream_var.mk false false false true true true true).has_ltlt = false ∧
    (stream_var.mk false false false true true true true).has_size = true ∧
    (stream_var.mk false false false true true true true).has_begin = true ∧
    (stream_var.mk false false false true true true true).has_end = true ∧
    (((stream_var.mk false false false true true true true).is_container = true ∧
        (stream_var.mk false false false true true true true).is_tuple = false) ∧
      ∀ q : stream_var, ¬ (q.is_tuple = true ∧ q.is_container = true)) :=
  ⟨rfl, rfl, rfl, rfl, rfl,
    C11_container_before_tuple (stream_var.mk false false false true true true true)
      rfl rfl rfl rfl rfl⟩

/-- C12: `_reflect` renders the `i`-th value of the pack under the `i`-th segment
of the name text split at every comma, with every space removed and nothing else
changed (`specName`); the names the code computes are these for every `i`, and
beyond the last segment the name is empty. -/
theorem C12_names_are_comma_segments (m : modeList) (d : Nat) (oBuffer nameStr : String)
    (values : List Value) :
    (∃ pieces : List String,
        List.Forall₂
          (fun (p : Nat × Value) (s : String) =>
            _processNameValue { mode := m, depth := (d : Int) } "" (specName nameStr p.1) p.2
              = some (s, { mode := m, depth := (d : Int) }))
          values.enum pieces ∧
        _reflect { mode := m, depth := (d : Int) } oBuffer nameStr values
          = some (oBuffer ++ String.join pieces, { mode := m, depth := (d : Int) })) ∧
      (∀ i : Nat, varT (varTRest^[i] nameStr) = specName nameStr i) ∧
      (∀ k : Nat, specName nameStr ((specSegments nameStr.data).length + k) = "") := by
  refine ⟨⟨values.enum.map (fun p => renderValue m d (specName nameStr p.1) p.2),
    forall₂_enum_render m d (specName nameStr) values, ?_⟩,
    fun i => nameAt_eq_specName i nameStr, specName_beyond nameStr⟩
  have e := renderArgs_eq_join m d values nameStr 0
  simp only [Function.iterate_zero, id_eq, nameAt_eq_specName] at e
  rw [reflect_args_eq, e]
  rfl

/-- C13: leftover name text is discarded. The text `reflect` returns for `n ≥ 1`
values is the same for two name texts with the same first `n` comma-separated
segments; so appending a comma and any further text to a name text that
already has `n` segments changes nothing; and `reflect` returns in each case. -/
theorem C13_leftover_names_discarded (st : State) (modeArg : modeList)
    (s1 s2 nameStr extra : String) (t : Value) (tRest : List Value) (h : -1 ≤ st.depth)
    (hagree : (specSegments s1.data).take (t :: tRest).length
      = (specSegments s2.data).take (t :: tRest).length)
    (hseg : (t :: tRest).length ≤ (specSegments nameStr.data).length) :
    (∃ text st1, reflect st modeArg s1 t tRest = some (text, st1)
        ∧ reflect st modeArg s2 t tRest = some (text, st1)) ∧
      (∃ text st1, reflect st modeArg nameStr t tRest = some (text, st1)
        ∧ reflect st modeArg (nameStr ++ "," ++ extra) t tRest = some (text, st1)) := by
  have key : ∀ a b : String,
      (specSegments a.data).take (t :: tRest).length
        = (specSegments b.data).take (t :: tRest).length →
      ∃ text st1, reflect st modeArg a t tRest = some (text, st1)
        ∧ reflect st modeArg b t tRest = some (text, st1) := by
    intro a b hab
    refine ⟨_, _, reflect_returns st modeArg a t tRest h, ?_⟩
    rw [reflect_returns st modeArg b t tRest h]
    rw [renderArgs_congr modeArg _ a b (t :: tRest) (fun i hi => by
      rw [nameAt_eq_specName, nameAt_eq_specName]
      exact specName_eq_of_take a b _ hab i hi)]
  refine ⟨key s1 s2 hagree, key _ _ ?_⟩
  have e1 : (nameStr ++ "," ++ extra).data = nameStr.data ++ ',' :: extra.data := by
    simp [String.data_append]
  rw [e1, specSegments_append_comma, List.take_append_of_le_length hseg]

/-- C13 at two values named by `"a, b"`, with and without leftover text. -/
theorem C13_leftover_names_discarded_witness :
    (-1 : Int) ≤ State.initial.depth ∧
    (specSegments "a, b,c".data).take [Value.streamable "1", Value.tuple []].length
      = (specSegments "a, b,d,e".data).take [Value.streamable "1", Value.tuple []].length ∧
    [Value.streamable "1", Value.tuple []].length ≤ (specSegments "a, b".data).length ∧
    ((∃ text st1, reflect State.initial modeList.List "a, b,c" (Value.streamable "1")
          [Value.tuple []] = some (text, st1)
        ∧ reflect State.initial modeList.List "a, b,d,e" (Value.streamable "1")
          [Value.tuple []] = some (text, st1)) ∧
      (∃ text st1, reflect State.initial modeList.List "a, b" (Value.streamable "1")
          [Value.tuple []] = some (text, st1)
        ∧ reflect State.initial modeList.List ("a, b" ++ "," ++ "zz") (Value.streamable "1")
          [Value.tuple []] = some (text, st1))) :=
  ⟨by decide, by decide, by decide,
    C13_leftover_names_discarded State.initial modeList.List "a, b,c" "a, b,d,e" "a, b" "zz"
      (Value.streamable "1") [Value.tuple []] (by decide) (by decide) (by decide)⟩

/-- C14 as stated fails: in CSV mode the text between an element's name and its
value is `" , "`, not `" = "`. -/
theorem C14_counterexample :
    (reflect State.initial modeList.CSV "v"
        (Value.container 3 [Value.streamable "3", Value.streamable "5", Value.streamable "7"])
        []).map Prod.fst
      ≠ some "v ( Container with 3 elements ) , v[0] = 3 , v[1] = 5 , v[2] = 7 , " := by
  decide

/-- C14 amended: rendering the vector `{3,5,7}` under the name text `"v"` in CSV mode,
from any state with `depth ≥ -1`, returns exactly `"v ( Container with 3 elements ) , v[0] , 3 , v[1] , 5 , v[2] , 7 , "`. -/
theorem C14_csv_vector (st : State) (h : -1 ≤ st.depth) :
    reflect st modeList.CSV "v"
        (Value.container 3 [Value.streamable "3", Value.streamable "5", Value.streamable "7"]) []
      = some ("v ( Container with 3 elements ) , v[0] , 3 , v[1] , 5 , v[2] , 7 , ",
          { mode := modeList.CSV, depth := st.depth }) := by
  rw [reflect_returns st modeList.CSV "v" _ _ h]
  have hv : varT "v" = "v" := by decide
  have h0 : varTElem "v" 0 = "v[0]" := by decide
  have h1 : varTElem "v" 1 = "v[1]" := by decide
  have h2 : varTElem "v" 2 = "v[2]" := by decide
  simp only [renderArgs, renderValue, renderElems, opening, middleDelims, endDelims, hv, h0, h1,
    h2, Nat.reduceAdd]
  rfl

/-- C14 amended, from the initial state. -/
theorem C14_csv_vector_witness :
    (-1 : Int) ≤ State.initial.depth ∧
    reflect State.initial modeList.CSV "v"
        (Value.container 3 [Value.streamable "3", Value.streamable "5", Value.streamable "7"]) []
      = some ("v ( Container with 3 elements ) , v[0] , 3 , v[1] , 5 , v[2] , 7 , ",
          { mode := modeList.CSV, depth := State.initial.depth }) :=
  ⟨by decide, C14_csv_vector State.initial (by decide)⟩

/-- C15: rendering `(true, 101, 1.5f)`, streamed as `true`, `101` and `1.5`, under the
name text `"a, b, c"` in List mode from the initial state returns exactly
`"a = true\nb = 101\nc = 1.5\n"`. -/
theorem C15_list_three_primitives :
    reflect State.initial modeList.List "a, b, c" (Value.streamable "true")
        [Value.streamable "101", Value.streamable "1.5"]
      = some ("a = true\nb = 101\nc = 1.5\n", State.initial) := by
  decide

/-- C19 as stated fails: with `depth = -1`, outside any `reflect` call, the counter of
`beginDelim` does reach zero, after 4294967295 decrements that take it around from
the smallest `int` to the largest, and `beginDelim` returns. -/
theorem C19_counterexample :
    beginDelim { mode := modeList.CSV, depth := -1 } = some "" ∧
      beginDelimLoop "" 4294967296 (-1) "" = some "" ∧
      beginDelimLoop "" 4294967295 (-1) "" = none := by
  refine ⟨?_, ?_, ?_⟩
  · rw [beginDelim_wraps modeList.CSV (-1) (by omega) (by omega)]
    simp only [beginDelims, join_replicate_empty]
  · rw [beginDelimLoop_wraps "" _ (-1) "" (by omega) (by omega), if_pos (by omega),
      join_replicate_empty]
    rfl
  · rw [beginDelimLoop_wraps "" _ (-1) "" (by omega) (by omega), if_neg (by omega)]

/-- C19 amended: from the initial state `depth = -1`, for all values (any insertion,
`reflect()` through any of the three macros), `reflect` returns and every
evaluation of `beginDelim` made during the call, nested calls included, saw
`depth ≥ 0`. With `depth = d ≥ 0` the countdown ends after exactly `d` iterations: it
returns, with `d` delimiters appended, when allowed more than `d` evaluations of
its condition and not with fewer. With a negative `int` for counter the loop
wraps around and ends after exactly `loopCtr + 2^32` iterations. -/
theorem C19_beginDelim_countdown (modeArg : modeList) (nameStr : String) (t : General.Value)
    (tRest : List General.Value) (delim ret : String) (d fuel : Nat) (loopCtr : Int)
    (hlo : -2147483648 ≤ loopCtr) (hneg : loopCtr < 0) :
    (∃ text r1,
        General.reflect (General.Run.mk State.initial []) modeArg nameStr t tRest
          = some (text, r1) ∧
        r1.seen ≠ [] ∧ ∀ x ∈ r1.seen, (0 : Int) ≤ x) ∧
      beginDelimLoop delim fuel (d : Int) ret
        = (if d < fuel then some (ret ++ String.join (List.replicate d delim)) else none) ∧
      beginDelimLoop delim fuel loopCtr ret
        = (if (loopCtr + 4294967296).toNat < fuel
            then some (ret ++ String.join (List.replicate (loopCtr + 4294967296).toNat delim))
            else none) := by
  refine ⟨?_, beginDelimLoop_iterations delim d fuel ret,
    beginDelimLoop_wraps delim fuel loopCtr ret hlo hneg⟩
  obtain ⟨text, m1, s1, h1, h2, h3⟩ := General.reflect_seen modeArg modeList.List nameStr t
    tRest 0 [] (fun x hx => absurd hx (List.not_mem_nil x))
  refine ⟨text, _, h1, ?_, h2⟩
  intro hnil
  have hs : s1 = [] := hnil
  rw [hs] at h3
  exact Nat.lt_irrefl _ h3

/-- C19 amended, at a value whose `reflect()` is `CppReflectAsCSV(a, b)` inside a
container, and at the counter `-1`. -/
theorem C19_beginDelim_countdown_witness :
    (-2147483648 : Int) ≤ -1 ∧ (-1 : Int) < 0 ∧
    ((∃ text r1,
        General.reflect (General.Run.mk State.initial []) modeList.List "var8, var10"
            (General.Value.container 1
              [General.Value.object (some modeList.CSV) "a,b"
                [General.unsignedValue 51, General.stdHex]])
            [General.unsignedValue 52]
          = some (text, r1) ∧
        r1.seen ≠ [] ∧ ∀ x ∈ r1.seen, (0 : Int) ≤ x) ∧
      beginDelimLoop "\t" 3 ((2 : Nat) : Int) ""
        = (if 2 < 3 then some ("" ++ String.join (List.replicate 2 "\t")) else none) ∧
      beginDelimLoop "\t" 3 (-1) ""
        = (if ((-1 : Int) + 4294967296).toNat < 3
            then some ("" ++ String.join (List.replicate ((-1 : Int) + 4294967296).toNat "\t"))
            else none)) :=
  ⟨by decide, by decide,
    C19_beginDelim_countdown modeList.List "var8, var10"
      (General.Value.container 1
        [General.Value.object (some modeList.CSV) "a,b"
          [General.unsignedValue 51, General.stdHex]])
      [General.unsignedValue 52] "\t" "" 2 3 (-1) (by decide) (by decide)⟩

/-- C21: more than one overload of `_processNameValue` is enabled for a type exactly
when it has `reflect()` and is also streamable, tuple-like or container-like, or
when it is streamable and has a `tuple_size`; exactly one overload is enabled
exactly in the other cases; and `not_printable` is enabled exactly when none of
the other four is. -/
theorem C21_ambiguous_dispatch (p : stream_var) :
    (1 < (enabledOverloads p).length ↔
        (p.has_reflect = true ∧
            (p.has_ltlt = true ∨ p.is_tuple = true ∨ p.is_container = true)) ∨
          (p.has_ltlt = true ∧ p.test_tuple = true)) ∧
      ((enabledOverloads p).length = 1 ↔
        ¬ ((p.has_reflect = true ∧
              (p.has_ltlt = true ∨ p.is_tuple = true ∨ p.is_container = true)) ∨
            (p.has_ltlt = true ∧ p.test_tuple = true))) ∧
      (p.not_printable = true ↔
        (p.has_reflect = false ∧ p.has_ltlt = false ∧ p.is_tuple = false ∧
          p.is_container = false)) := by
  obtain ⟨a, b, c, d, e, f, g⟩ := p
  cases a <;> cases b <;> cases c <;> cases d <;> cases e <;> cases f <;> cases g <;> decide

end CppReflection
